import Mathlib

/-
Verification of the elementflow streaming XML writer (src/elementflow.py).

Embedding conventions:
- the pure escaping helpers work on `List Char` (one entry per Python
  character);
- the generator state carries its output as a `String`;
- Python's mutable set objects (the namespace scope sets shared through
  `self.namespaces`) are embedded with an explicit store (`nsStore`) plus a
  stack of indices into it (`nsStack`), so that the in-place union
  `prefixes |= set(namespaces)` performed by `_process_namespaces` mutates
  exactly the store cell that the stack entries reference, as in Python.
-/

namespace ElementFlow

/-! ### Escaper (src/elementflow.py lines 38-53) -/

/-- Entity text for the ampersand. -/
def ampEnt : List Char := ['&', 'a', 'm', 'p', ';']

/-- Entity text for the less-than sign. -/
def ltEnt : List Char := ['&', 'l', 't', ';']

/-- Entity text for the double quote. -/
def quotEnt : List Char := ['&', 'q', 'u', 'o', 't', ';']

/-- Python `value.replace(c, repl)` for a one-character pattern `c`:
every occurrence of `c` is replaced by `repl`, scanning left to right. -/
def replaceChar (c : Char) (repl : List Char) : List Char → List Char
  | [] => []
  | a :: rest => (if a = c then repl else [a]) ++ replaceChar c repl rest

/-- Function `escape` (line 38): fast path returns the value unchanged when
it holds neither an ampersand nor a less-than sign, otherwise replaces the
ampersand first and the less-than sign second. -/
def escape (value : List Char) : List Char :=
  if '&' ∉ value ∧ '<' ∉ value then value
  else replaceChar '<' ltEnt (replaceChar '&' ampEnt value)

/-- Function `quote_value` (line 44): replaces ampersand, less-than and
double quote when any of them is present, then wraps the result in double
quotes (on the fast path the quotes are still added). -/
def quote_value (value : List Char) : List Char :=
  '"' ::
    ((if '&' ∈ value ∨ '<' ∈ value ∨ '"' ∈ value then
        replaceChar '"' quotEnt (replaceChar '<' ltEnt (replaceChar '&' ampEnt value))
      else value) ++ ['"'])

/-- Python removal of two-hyphen pairs as performed by
`XMLGenerator.comment` (line 112): scans left to right, removing each
occurrence of two consecutive hyphens and continuing after the removed
pair.  The spec calls this step `sanitize_comment`. -/
def sanitize_comment : List Char → List Char
  | [] => []
  | [c] => [c]
  | a :: b :: rest =>
    if a = '-' ∧ b = '-' then sanitize_comment rest
    else a :: sanitize_comment (b :: rest)

/-- Character-wise restatement of the two text replacements: every
ampersand becomes the amp entity, every less-than sign the lt entity, and
every other character (in particular the greater-than sign and the double
quote) is kept unchanged. -/
def escapeEach : List Char → List Char
  | [] => []
  | a :: rest =>
    (if a = '&' then ampEnt else if a = '<' then ltEnt else [a]) ++ escapeEach rest

/-- Character-wise restatement of the three attribute replacements of
`quote_value`. -/
def escAttrEach : List Char → List Char
  | [] => []
  | a :: rest =>
    (if a = '&' then ampEnt
     else if a = '<' then ltEnt
     else if a = '"' then quotEnt
     else [a]) ++ escAttrEach rest

/-- Decoder for text content: an XML parser resolves the amp and lt entity
references back to their characters; everything else is read verbatim. -/
def decodeEntities : List Char → List Char
  | [] => []
  | c :: rest =>
    if c = '&' ∧ rest.take 4 = ['a', 'm', 'p', ';'] then '&' :: decodeEntities (rest.drop 4)
    else if c = '&' ∧ rest.take 3 = ['l', 't', ';'] then '<' :: decodeEntities (rest.drop 3)
    else c :: decodeEntities rest
termination_by s => s.length
decreasing_by
  all_goals simp [List.length_drop]
  all_goals omega

/-- Decoder for attribute values: a parser resolves the amp, lt and quot
entity references inside the quoted region back to their characters. -/
def decodeAttr : List Char → List Char
  | [] => []
  | c :: rest =>
    if c = '&' ∧ rest.take 4 = ['a', 'm', 'p', ';'] then '&' :: decodeAttr (rest.drop 4)
    else if c = '&' ∧ rest.take 3 = ['l', 't', ';'] then '<' :: decodeAttr (rest.drop 3)
    else if c = '&' ∧ rest.take 5 = ['q', 'u', 'o', 't', ';'] then '"' :: decodeAttr (rest.drop 5)
    else c :: decodeAttr rest
termination_by s => s.length
decreasing_by
  all_goals simp [List.length_drop]
  all_goals omega

/-- Detector for two consecutive hyphens. -/
def hasDoubleDash : List Char → Bool
  | [] => false
  | [_] => false
  | a :: b :: rest => (a == '-' && b == '-') || hasDoubleDash (b :: rest)

/-! ### Generator state

The three generator classes share one state record.  `XMLGenerator` only
touches `out` and `stack`; `NamespacedGenerator` adds the scope machinery.
Python list order is reversed here: the head of `stack` and of `nsStack`
is the Python list's last element, so Python `append` is `cons`,
`pop` is `tail`, and the Python index `[-1]` is the head. -/

/-- Errors a generator call can raise: `ValueError` with the unknown
namespace prefix from `_process_namespaces`, or `IndexError` from popping
an empty Python list. -/
inductive GenErr where
  | nsError (p : String)
  | popEmpty
deriving DecidableEq

/-- Attribute dictionaries are ordered key-value lists (Python dicts keep
insertion order). -/
abbrev Attrs := List (String × String)

/-- State of a generator: the bytes written so far, the container stack,
and the namespace machinery.  `nsStore` is the heap of Python set objects;
`nsStack` (the `self.namespaces` list) holds references into it, so that
aliased entries share mutations, as the Python objects do. -/
structure Gen where
  out : String
  stack : List String
  nsStore : List (Finset String)
  nsStack : List Nat
deriving DecidableEq

/-- Fixed document header written by `XMLGenerator.__init__` (line 72). -/
def xmlHeader : String := "<?xml version=\"1.0\" encoding=\"utf-8\"?>"

/-- `escape` lifted to `String`. -/
def escapeS (s : String) : String := String.mk (escape s.data)

/-- `quote_value` lifted to `String`. -/
def quote_valueS (s : String) : String := String.mk (quote_value s.data)

/-- Function `convert_attrs_to_string` (line 50): one leading space,
`key=` and the quoted value per attribute, in dictionary order (an empty
dict yields the empty string, as does Python's early return). -/
def convert_attrs_to_string (attrs : Attrs) : String :=
  String.join (attrs.map fun kv => " " ++ kv.1 ++ "=" ++ quote_valueS kv.2)

/-- Markup written by `XMLGenerator.container` (line 89). -/
def renderOpenTag (name : String) (attrs : Attrs) : String :=
  "<" ++ name ++ convert_attrs_to_string attrs ++ ">"

/-- Markup written by `XMLGenerator.element` (lines 97-100): a nonempty
text yields an open tag, the escaped text and a closing tag; an empty text
yields a self-closing tag. -/
def renderElement (name : String) (attrs : Attrs) (text : String) : String :=
  if text ≠ "" then
    "<" ++ name ++ convert_attrs_to_string attrs ++ ">" ++ escapeS text ++ "</" ++ name ++ ">"
  else "<" ++ name ++ convert_attrs_to_string attrs ++ "/>"

/-- `XMLGenerator.container` (line 84): write the open tag, push the name. -/
def XG.container (g : Gen) (name : String) (attrs : Attrs) : Gen :=
  { g with out := g.out ++ renderOpenTag name attrs, stack := name :: g.stack }

/-- `XMLGenerator.element` (line 93): write a complete element, leave the
container stack alone. -/
def XG.element (g : Gen) (name : String) (attrs : Attrs) (text : String) : Gen :=
  { g with out := g.out ++ renderElement name attrs text }

/-- `XMLGenerator.text` (line 102): write the escaped text. -/
def XG.text (g : Gen) (value : String) : Gen :=
  { g with out := g.out ++ escapeS value }

/-- `XMLGenerator.comment` (line 108): write the sanitized comment. -/
def XG.comment (g : Gen) (value : String) : Gen :=
  { g with out := g.out ++ "<!--" ++ String.mk (sanitize_comment value.data) ++ "-->" }

/-- `XMLGenerator.__exit__` (line 79): with a pending exception, return at
once, writing and popping nothing; otherwise pop the container stack and
write the closing tag (an empty stack raises `IndexError`). -/
def XG.exit (g : Gen) (exc : Bool) : Gen × Option GenErr :=
  if exc then (g, none)
  else
    match g.stack with
    | [] => (g, some .popEmpty)
    | top :: rest =>
      ({ g with out := g.out ++ "</" ++ top ++ ">", stack := rest }, none)

/-- `XMLGenerator.__init__` (line 70) as used for the plain class: write
the header, start with an empty stack and open the root container (the
namespace fields are unused by this class). -/
def XG.init (root : String) (attrs : Attrs) : Gen :=
  XG.container { out := xmlHeader, stack := [], nsStore := [], nsStack := [] } root attrs

/-! ### Namespace layer (`NamespacedGenerator`, lines 129-189) -/

/-- Python `set(namespaces)`: the set of declared prefix keys. -/
def nsKeys (ns : List (String × String)) : Finset String :=
  ns.foldl (fun s kv => insert kv.1 s) ∅

/-- Python `self.namespaces[-1]`: the reference held by the top stack
entry. -/
def topRef (g : Gen) : Nat := g.nsStack.headD 0

/-- Store after line 152, `prefixes |= set(namespaces)`: the in-place
union mutates the set object that `namespaces[-1]` references (a no-op
when the `namespaces` argument is falsy). -/
def mergedStore (g : Gen) (ns : List (String × String)) : List (Finset String) :=
  if ns.isEmpty then g.nsStore
  else g.nsStore.set (topRef g) (g.nsStore.getD (topRef g) ∅ ∪ nsKeys ns)

/-- Value of the set `prefixes` after the in-place union: the visible set
the validation loop checks against. -/
def visibleAfterMerge (g : Gen) (ns : List (String × String)) : Finset String :=
  (mergedStore g ns).getD (topRef g) ∅

/-- Python `name.split(colon)[0]`: the characters before the first
colon. -/
def colonPfx (n : String) : String := String.mk (n.data.takeWhile fun c => c ≠ ':')

/-- The validation loop of `_process_namespaces` (lines 154-158): scan the
element name followed by the attribute names, keep only names holding a
colon, and raise on the first whose part before the colon is not in the
visible set. -/
def findUnknown (pfxs : Finset String) : List String → Option String
  | [] => none
  | n :: rest =>
    if ':' ∈ n.data then
      if colonPfx n ∈ pfxs then findUnknown pfxs rest
      else some (colonPfx n)
    else findUnknown pfxs rest

/-- Translation of the namespaces dict into reserved attributes (lines
160-163): key `k` becomes `xmlns:k`, the empty key becomes plain `xmlns`,
keeping dict order. -/
def xmlnsOf (ns : List (String × String)) : Attrs :=
  ns.map fun kv => (if kv.1 = "" then "xmlns" else "xmlns:" ++ kv.1, kv.2)

/-- Python `d[k] = v` inside `dict.update`: replace the value in place
when the key is present, else append the pair at the end. -/
def dictInsert (d : Attrs) (k v : String) : Attrs :=
  if d.any fun e => e.1 == k then d.map fun e => if e.1 = k then (e.1, v) else e
  else d ++ [(k, v)]

/-- Python `attributes.update(namespaces)` (line 164): fold `dictInsert`
over the update pairs in order. -/
def dictUpdate (d : Attrs) (us : List (String × String)) : Attrs :=
  us.foldl (fun d kv => dictInsert d kv.1 kv.2) d

/-- The attribute dict handed to the base writer: the xmlns attributes are
merged in only when a namespaces mapping was supplied.  When the caller
passed a non-empty `attrs` dict, Python's `attributes = attrs or` fresh
dict binds the caller's own object, so this merged content is also what
the caller's dict holds after the call. -/
def mergedAttrs (attrs : Attrs) (ns : List (String × String)) : Attrs :=
  if ns.isEmpty then attrs else dictUpdate attrs (xmlnsOf ns)

/-- Result of `_process_namespaces`: the state (whose store the in-place
union already mutated), the attribute dict to pass on, the reference that
the Python code returns as `prefixes` (it returns the set object itself,
i.e. `namespaces[-1]`), and the error, if any. -/
structure PNOut where
  g : Gen
  attributes : Attrs
  ref : Nat
  err : Option GenErr

/-- `NamespacedGenerator._process_namespaces` (lines 144-165).  Note the
order: the union into the store happens before validation, validation runs
over the pre-update attribute names against the post-merge visible set,
and the xmlns attributes are merged in only after validation passed. -/
def processNamespaces (g : Gen) (name : String) (attrs : Attrs)
    (ns : List (String × String)) : PNOut :=
  match findUnknown (visibleAfterMerge g ns) (name :: attrs.map Prod.fst) with
  | some p =>
    { g := { g with nsStore := mergedStore g ns }, attributes := attrs,
      ref := topRef g, err := some (.nsError p) }
  | none =>
    { g := { g with nsStore := mergedStore g ns }, attributes := mergedAttrs attrs ns,
      ref := topRef g, err := none }

/-- `NamespacedGenerator.container` (line 171): process namespaces, push
the returned set object (the same reference the parent entry holds) onto
the scope stack, then delegate to the base `container`. -/
def NG.container (g : Gen) (name : String) (attrs : Attrs)
    (ns : List (String × String)) : Gen × Option GenErr :=
  let r := processNamespaces g name attrs ns
  match r.err with
  | some e => (r.g, some e)
  | none =>
    (XG.container { r.g with nsStack := r.ref :: r.g.nsStack } name r.attributes, none)

/-- `NamespacedGenerator.element` (line 181): process namespaces, then
delegate to the base `element`; the scope stack is not touched. -/
def NG.element (g : Gen) (name : String) (attrs : Attrs)
    (ns : List (String × String)) (text : String) : Gen × Option GenErr :=
  let r := processNamespaces g name attrs ns
  match r.err with
  | some e => (r.g, some e)
  | none => (XG.element r.g name r.attributes text, none)

/-- `NamespacedGenerator.__exit__` (line 167): delegate to the base exit
(which on a pending exception does nothing and reports no error), then pop
the scope stack unconditionally. -/
def NG.exit (g : Gen) (exc : Bool) : Gen × Option GenErr :=
  match XG.exit g exc with
  | (g1, some e) => (g1, some e)
  | (g1, none) =>
    match g1.nsStack with
    | [] => (g1, some .popEmpty)
    | _ :: t => ({ g1 with nsStack := t }, none)

/-- `NamespacedGenerator.__init__` (line 134): seed the scope stack with
one set object holding the reserved prefix, then run the base constructor,
whose `self.container` call dispatches to `NamespacedGenerator.container`. -/
def NG.init (root : String) (attrs : Attrs) (ns : List (String × String)) :
    Gen × Option GenErr :=
  NG.container
    { out := xmlHeader, stack := [], nsStore := [{"xml"}], nsStack := [0] }
    root attrs ns

/-! ### Public call sequences on the namespaced writer -/

/-- One public operation on the namespaced writer; `exit true` is the
scoped close reached with a pending exception, `exit false` the normal
scoped close. -/
inductive Call where
  | container (name : String) (attrs : Attrs) (ns : List (String × String))
  | element (name : String) (attrs : Attrs) (ns : List (String × String)) (text : String)
  | text (value : String)
  | comment (value : String)
  | exit (exc : Bool)
deriving DecidableEq

/-- Dispatch of one public call on a `NamespacedGenerator` (`text` and
`comment` are inherited from the base class unchanged). -/
def NG.step (g : Gen) : Call → Gen × Option GenErr
  | .container name attrs ns => NG.container g name attrs ns
  | .element name attrs ns text => NG.element g name attrs ns text
  | .text value => (XG.text g value, none)
  | .comment value => (XG.comment g value, none)
  | .exit exc => NG.exit g exc

/-- The documented invariant: one scope entry per open container plus the
root scope beneath it. -/
abbrev lenInv (g : Gen) : Prop := g.nsStack.length = g.stack.length + 1

/-! ### Indentation layer (`IndentingGenerator`, lines 192-246) -/

/-- Immutable pretty-printing configuration popped from the keyword
arguments in `IndentingGenerator.__init__`: `indentStr` holds the
indent-size many spaces. -/
structure IndentCfg where
  text_wrap : Bool
  indentStr : String
  width : Nat
  min_width : Nat
deriving DecidableEq

/-- Python string repetition. -/
def srepeat (s : String) : Nat → String
  | 0 => ""
  | n + 1 => s ++ srepeat s n

/-- Whitespace splitting as performed by `textwrap` with its default
`replace_whitespace`: maximal runs of non-whitespace characters, in order,
surrounding whitespace dropped. -/
def splitWordsAux : List Char → List Char → List (List Char)
  | acc, [] => if acc.isEmpty then [] else [acc.reverse]
  | acc, c :: rest =>
    if c.isWhitespace then
      if acc.isEmpty then splitWordsAux [] rest
      else acc.reverse :: splitWordsAux [] rest
    else splitWordsAux (c :: acc) rest

/-- Words of a text, for the line-filling model. -/
def splitWords (s : List Char) : List (List Char) := splitWordsAux [] s

/-- Greedy filling: keep appending the next word (with one joining space)
while the line stays within the width, else emit the line and start a
fresh one with the indent `pre`. -/
def greedy (w : Nat) (pre : List Char) (cur : List Char) : List (List Char) → List (List Char)
  | [] => [cur]
  | word :: rest =>
    if cur.length + 1 + word.length ≤ w then greedy w pre (cur ++ ' ' :: word) rest
    else cur :: greedy w pre (pre ++ word) rest

/-- All filled lines, each starting with the indent `pre`, each within the
width provided every indented word fits. -/
def wrapLines (w : Nat) (pre : List Char) : List (List Char) → List (List Char)
  | [] => []
  | word :: rest => greedy w pre (pre ++ word) rest

/-- Greedy model of the `textwrap` fill with `initial_indent` equal to
`subsequent_indent`, with default settings, for text whose inter-word
whitespace collapses to single spaces and whose words fit the wrap width
(the only shapes the repository wraps); `fill` joins the lines with
newlines. -/
def twFill (w : Nat) (ind : String) (value : String) : String :=
  String.intercalate "\n" ((wrapLines w ind.data (splitWords value.data)).map String.mk)

/-- `IndentingGenerator._fill` (line 212) with an explicit indent: shrink
the width by the indent but never below the floor, fill, and put a newline
in front.  Python's possibly negative subtraction agrees with the
truncated subtraction here because the `max` with the non-negative floor
absorbs both. -/
def IG.fillWith (cfg : IndentCfg) (value : String) (ind : String) : String :=
  "\n" ++ twFill (max cfg.min_width (cfg.width - ind.length)) ind value

/-- `IndentingGenerator._format_value` (line 204): write a newline and the
indent of the current depth to the file, then reflow the value only when
it is longer than the width and wrapping is enabled, giving the wrapped
block one more indent level and landing the closing tag on its own line at
the element's indent. -/
def IG.formatValue (cfg : IndentCfg) (g : Gen) (value : String) : Gen × String :=
  let ind := srepeat cfg.indentStr g.stack.length
  let g1 : Gen := { g with out := g.out ++ "\n" ++ ind }
  if value.length > cfg.width ∧ cfg.text_wrap = true then
    (g1, IG.fillWith cfg value (ind ++ cfg.indentStr) ++ "\n" ++ ind)
  else (g1, value)

/-- `IndentingGenerator.container` (line 226): write newline plus the
current indent, then delegate (so these bytes are already in the sink when
namespace validation runs). -/
def IG.container (cfg : IndentCfg) (g : Gen) (name : String) (attrs : Attrs)
    (ns : List (String × String)) : Gen × Option GenErr :=
  NG.container { g with out := g.out ++ "\n" ++ srepeat cfg.indentStr g.stack.length }
    name attrs ns

/-- `IndentingGenerator.element` (line 231): format the text (which writes
newline plus indent), then delegate. -/
def IG.element (cfg : IndentCfg) (g : Gen) (name : String) (attrs : Attrs)
    (ns : List (String × String)) (text : String) : Gen × Option GenErr :=
  let r := IG.formatValue cfg g text
  NG.element r.1 name attrs ns r.2

/-- `IndentingGenerator.text` (line 241): always reflow through the fill
at the current depth, then delegate to the inherited text writer. -/
def IG.text (cfg : IndentCfg) (g : Gen) (value : String) : Gen :=
  XG.text g (IG.fillWith cfg value (srepeat cfg.indentStr g.stack.length))

/-- `IndentingGenerator.comment` (line 244): format the value, then
delegate to the inherited comment writer (the formatted value is also
returned for inspection). -/
def IG.comment (cfg : IndentCfg) (g : Gen) (value : String) : Gen × String :=
  let r := IG.formatValue cfg g value
  (XG.comment r.1 r.2, r.2)

/-- `IndentingGenerator.__exit__` (line 219): write newline plus the
parent indent (even with a pending exception), delegate, and after the
root closes write a final newline. -/
def IG.exit (cfg : IndentCfg) (g : Gen) (exc : Bool) : Gen × Option GenErr :=
  let g1 : Gen := { g with out := g.out ++ "\n" ++ srepeat cfg.indentStr (g.stack.length - 1) }
  match NG.exit g1 exc with
  | (g2, some e) => (g2, some e)
  | (g2, none) =>
    if g2.stack.isEmpty then ({ g2 with out := g2.out ++ "\n" }, none) else (g2, none)

/-- `IndentingGenerator.__init__` (line 197): pop the configuration, then
run the namespaced constructor, whose container call dispatches to
`IndentingGenerator.container`. -/
def IG.init (cfg : IndentCfg) (root : String) (attrs : Attrs)
    (ns : List (String × String)) : Gen × Option GenErr :=
  IG.container cfg { out := xmlHeader, stack := [], nsStore := [{"xml"}], nsStack := [0] }
    root attrs ns

/-! ### Concrete states used by witnesses and counterexamples -/

/-- Pretty-printing configuration of the repository's indent tests:
indent size two, width seventy, floor twenty, wrapping on. -/
def cfgW : IndentCfg :=
  { text_wrap := true, indentStr := "  ", width := 70, min_width := 20 }

/-- A state two containers deep, as inside the indent test. -/
def gW : Gen :=
  { out := "", stack := ["a", "root"], nsStore := [{"xml"}], nsStack := [0, 0, 0] }

/-- The indent test's text: twenty repetitions of a four-letter word plus
space (one hundred characters). -/
def blahW : String :=
  "blah blah blah blah blah blah blah blah blah blah blah blah blah blah blah blah blah blah blah blah "

/-- State of the plain generator after opening the root and writing a
text, as in the abnormal-exit test. -/
def c5gW : Gen := XG.text (XG.init "root" []) "Text"

/-- Namespaced writer after the root declared one prefix. -/
def c1g1 : Gen := (NG.init "root" [] [("n1", "urn:n1")]).1

/-- Then a nested container declared a second prefix. -/
def c1g2 : Gen := (NG.container c1g1 "c" [] [("n2", "urn:n2")]).1

/-- Then that nested container was closed normally. -/
def c1g3 : Gen := (NG.exit c1g2 false).1

/-- Namespaced writer fresh after construction with no declarations. -/
def c4g : Gen := (NG.init "root" [] []).1

/-- Indenting writer fresh after construction with no declarations. -/
def c2g : Gen := (IG.init cfgW "root" [] []).1

/-! ### Lemmas about the escaping helpers -/

theorem rcLtAmp : replaceChar '<' ltEnt ampEnt = ampEnt := by decide

theorem rcLtLt : replaceChar '<' ltEnt ['<'] = ltEnt := by decide

theorem rcQAmp : replaceChar '"' quotEnt ampEnt = ampEnt := by decide

theorem rcQLt : replaceChar '"' quotEnt ltEnt = ltEnt := by decide

theorem rcQQ : replaceChar '"' quotEnt ['"'] = quotEnt := by decide

theorem replaceChar_append (c : Char) (r x y : List Char) :
    replaceChar c r (x ++ y) = replaceChar c r x ++ replaceChar c r y := by
  induction x with
  | nil => rfl
  | cons a t ih => simp [replaceChar, ih]

theorem replace_amp_lt (s : List Char) :
    replaceChar '<' ltEnt (replaceChar '&' ampEnt s) = escapeEach s := by
  induction s with
  | nil => rfl
  | cons a t ih =>
    have h0 : replaceChar '&' ampEnt (a :: t)
        = (if a = '&' then ampEnt else [a]) ++ replaceChar '&' ampEnt t := rfl
    rw [h0, replaceChar_append, ih]
    by_cases h1 : a = '&'
    · subst h1
      simp [escapeEach, rcLtAmp]
    · by_cases h2 : a = '<'
      · subst h2
        simp [escapeEach, rcLtLt]
      · simp [escapeEach, h1, h2, replaceChar]

theorem replace_attr_each (s : List Char) :
    replaceChar '"' quotEnt (replaceChar '<' ltEnt (replaceChar '&' ampEnt s)) =
      escAttrEach s := by
  rw [replace_amp_lt]
  induction s with
  | nil => rfl
  | cons a t ih =>
    have h0 : escapeEach (a :: t)
        = (if a = '&' then ampEnt else if a = '<' then ltEnt else [a]) ++ escapeEach t := rfl
    rw [h0, replaceChar_append, ih]
    by_cases h1 : a = '&'
    · subst h1
      simp [escAttrEach, rcQAmp]
    · by_cases h2 : a = '<'
      · subst h2
        simp [escAttrEach, rcQLt]
      · by_cases h3 : a = '"'
        · subst h3
          simp [escAttrEach, rcQQ]
        · simp [escAttrEach, h1, h2, h3, replaceChar]

theorem escapeEach_of_no_special (s : List Char) (h : '&' ∉ s ∧ '<' ∉ s) :
    escapeEach s = s := by
  induction s with
  | nil => rfl
  | cons a t ih =>
    simp only [List.mem_cons, not_or] at h
    have h1 : a ≠ '&' := fun hh => h.1.1 hh.symm
    have h2 : a ≠ '<' := fun hh => h.2.1 hh.symm
    simp [escapeEach, h1, h2, ih ⟨h.1.2, h.2.2⟩]

theorem escAttrEach_of_no_special (s : List Char)
    (h : '&' ∉ s ∧ '<' ∉ s ∧ '"' ∉ s) :
    escAttrEach s = s := by
  induction s with
  | nil => rfl
  | cons a t ih =>
    simp only [List.mem_cons, not_or] at h
    have h1 : a ≠ '&' := fun hh => h.1.1 hh.symm
    have h2 : a ≠ '<' := fun hh => h.2.1.1 hh.symm
    have h3 : a ≠ '"' := fun hh => h.2.2.1 hh.symm
    simp [escAttrEach, h1, h2, h3, ih ⟨h.1.2, h.2.1.2, h.2.2.2⟩]

theorem escape_eq_escapeEach (s : List Char) : escape s = escapeEach s := by
  unfold escape
  split
  · next h => exact (escapeEach_of_no_special s h).symm
  · exact replace_amp_lt s

theorem quote_value_eq (s : List Char) :
    quote_value s = '"' :: (escAttrEach s ++ ['"']) := by
  unfold quote_value
  split
  · rw [replace_attr_each]
  · next h =>
    push_neg at h
    rw [escAttrEach_of_no_special s ⟨h.1, h.2.1, h.2.2⟩]

theorem decode_escapeEach (s : List Char) :
    decodeEntities (escapeEach s) = s := by
  induction s with
  | nil =>
    rw [show escapeEach [] = [] from rfl, decodeEntities.eq_def]
  | cons a t ih =>
    by_cases h1 : a = '&'
    · subst h1
      have he : escapeEach ('&' :: t) = '&' :: 'a' :: 'm' :: 'p' :: ';' :: escapeEach t := by
        simp [escapeEach, ampEnt]
      rw [he, decodeEntities.eq_def]
      simp [ih]
    · by_cases h2 : a = '<'
      · subst h2
        have he : escapeEach ('<' :: t) = '&' :: 'l' :: 't' :: ';' :: escapeEach t := by
          simp [escapeEach, ltEnt]
        rw [he, decodeEntities.eq_def]
        simp [ih]
      · have he : escapeEach (a :: t) = a :: escapeEach t := by
          simp [escapeEach, h1, h2]
        rw [he, decodeEntities.eq_def]
        simp [h1, ih]

theorem decodeAttr_escAttrEach (s : List Char) :
    decodeAttr (escAttrEach s) = s := by
  induction s with
  | nil =>
    rw [show escAttrEach [] = [] from rfl, decodeAttr.eq_def]
  | cons a t ih =>
    by_cases h1 : a = '&'
    · subst h1
      have he : escAttrEach ('&' :: t) = '&' :: 'a' :: 'm' :: 'p' :: ';' :: escAttrEach t := by
        simp [escAttrEach, ampEnt]
      rw [he, decodeAttr.eq_def]
      simp [ih]
    · by_cases h2 : a = '<'
      · subst h2
        have he : escAttrEach ('<' :: t) = '&' :: 'l' :: 't' :: ';' :: escAttrEach t := by
          simp [escAttrEach, ltEnt]
        rw [he, decodeAttr.eq_def]
        simp [ih]
      · by_cases h3 : a = '"'
        · subst h3
          have he : escAttrEach ('"' :: t)
              = '&' :: 'q' :: 'u' :: 'o' :: 't' :: ';' :: escAttrEach t := by
            simp [escAttrEach, quotEnt]
          rw [he, decodeAttr.eq_def]
          simp [ih]
        · have he : escAttrEach (a :: t) = a :: escAttrEach t := by
            simp [escAttrEach, h1, h2, h3]
          rw [he, decodeAttr.eq_def]
          simp [h1, ih]

theorem quot_not_mem_escAttrEach (s : List Char) : '"' ∉ escAttrEach s := by
  induction s with
  | nil => simp [escAttrEach]
  | cons a t ih =>
    by_cases h1 : a = '&'
    · subst h1; simp [escAttrEach, ih]; decide
    · by_cases h2 : a = '<'
      · subst h2; simp [escAttrEach, h1, ih]; decide
      · by_cases h3 : a = '"'
        · subst h3; simp [escAttrEach, h1, h2, ih]; decide
        · simp [escAttrEach, h1, h2, h3, ih]
          exact fun hh => h3 hh.symm

theorem count_escapeEach (s : List Char) (c : Char) (hc1 : c ≠ '&') (hc2 : c ≠ '<')
    (hc3 : c ∉ ampEnt) (hc4 : c ∉ ltEnt) :
    (escapeEach s).count c = s.count c := by
  induction s with
  | nil => rfl
  | cons a t ih =>
    by_cases h1 : a = '&'
    · subst h1
      simp [escapeEach, List.count_append, ih, List.count_cons, hc1,
        List.count_eq_zero.mpr hc3]
    · by_cases h2 : a = '<'
      · subst h2
        simp [escapeEach, List.count_append, ih, List.count_cons, hc2,
          List.count_eq_zero.mpr hc4]
      · simp [escapeEach, h1, h2, List.count_append, ih, List.count_cons]

/-! ### Lemmas for comment sanitization -/

theorem sanitize_comment_head (b : Char) (hb : b ≠ '-') (rest : List Char) :
    ∃ t, sanitize_comment (b :: rest) = b :: t := by
  cases rest with
  | nil => exact ⟨[], rfl⟩
  | cons c t =>
    rw [sanitize_comment]
    simp [hb]

theorem hasDoubleDash_cons (a : Char) (l : List Char)
    (hl : hasDoubleDash l = false)
    (h : a = '-' → ∀ b t, l = b :: t → b ≠ '-') :
    hasDoubleDash (a :: l) = false := by
  cases l with
  | nil => rfl
  | cons b t =>
    rw [hasDoubleDash]
    simp only [Bool.or_eq_false_iff, Bool.and_eq_false_iff]
    refine ⟨?_, hl⟩
    by_cases ha : a = '-'
    · right
      simp [beq_eq_false_iff_ne]
      exact h ha b t rfl
    · left
      simp [beq_eq_false_iff_ne]
      exact ha

/-! ### Lemmas about the namespace layer -/

theorem getdSet (l : List (Finset String)) (i : Nat) (x : Finset String)
    (h : i < l.length) : (l.set i x).getD i ∅ = x := by
  induction l generalizing i with
  | nil => simp at h
  | cons a t ih =>
    cases i with
    | zero => rfl
    | succ n =>
      simp only [List.set_cons_succ, List.getD_cons_succ]
      exact ih n (by simpa using h)

theorem nsKeys_nil : nsKeys [] = ∅ := rfl

theorem visibleAfterMerge_eq (g : Gen) (ns : List (String × String))
    (href : topRef g < g.nsStore.length) :
    visibleAfterMerge g ns = g.nsStore.getD (topRef g) ∅ ∪ nsKeys ns := by
  unfold visibleAfterMerge mergedStore
  by_cases hns : ns.isEmpty
  · rw [if_pos hns]
    have h2 : ns = [] := by simpa [List.isEmpty_iff] using hns
    rw [h2, nsKeys_nil, Finset.union_empty]
  · rw [if_neg hns, getdSet _ _ _ href]

theorem dictInsert_of_not_mem (d : Attrs) (k v : String)
    (h : k ∉ d.map Prod.fst) :
    dictInsert d k v = d ++ [(k, v)] := by
  have ha : (d.any fun e => e.1 == k) = false := by
    rw [List.any_eq_false]
    intro e he
    show ¬(e.1 == k) = true
    rw [beq_iff_eq]
    intro hk
    exact h (hk ▸ List.mem_map_of_mem Prod.fst he)
  simp [dictInsert, ha]

theorem dictUpdate_append (d : Attrs) (us : List (String × String))
    (hnd : (us.map Prod.fst).Nodup)
    (hdisj : ∀ k ∈ us.map Prod.fst, k ∉ d.map Prod.fst) :
    dictUpdate d us = d ++ us := by
  induction us generalizing d with
  | nil => simp [dictUpdate]
  | cons u us ih =>
    have h1 : u.1 ∉ d.map Prod.fst := hdisj u.1 (by simp)
    have step : dictUpdate d (u :: us) = dictUpdate (d ++ [u]) us := by
      simp only [dictUpdate, List.foldl_cons]
      rw [dictInsert_of_not_mem d u.1 u.2 h1]
    rw [step]
    simp only [List.map_cons, List.nodup_cons] at hnd
    have h2 : ∀ k ∈ us.map Prod.fst, k ∉ (d ++ [u]).map Prod.fst := by
      intro k hk
      simp only [List.map_append, List.mem_append, List.map_cons]
      rintro (hd | hu)
      · exact hdisj k (by simp [hk]) hd
      · simp at hu
        exact hnd.1 (hu ▸ hk)
    rw [ih (d ++ [u]) hnd.2 h2, List.append_assoc]
    rfl

theorem container_cases (g : Gen) (name : String) (attrs : Attrs)
    (ns : List (String × String)) :
    (∃ p, NG.container g name attrs ns
        = ({ g with nsStore := mergedStore g ns }, some (.nsError p)))
    ∨ NG.container g name attrs ns
        = (XG.container
            { g with nsStore := mergedStore g ns, nsStack := topRef g :: g.nsStack }
            name (mergedAttrs attrs ns), none) := by
  cases h : findUnknown (visibleAfterMerge g ns) (name :: attrs.map Prod.fst) with
  | some p =>
    left
    exact ⟨p, by simp [NG.container, processNamespaces, h]⟩
  | none =>
    right
    simp [NG.container, processNamespaces, h]

theorem element_frame (g : Gen) (name : String) (attrs : Attrs)
    (ns : List (String × String)) (text : String) :
    (NG.element g name attrs ns text).1.stack = g.stack
    ∧ (NG.element g name attrs ns text).1.nsStack = g.nsStack := by
  cases h : findUnknown (visibleAfterMerge g ns) (name :: attrs.map Prod.fst) with
  | some p => simp [NG.element, processNamespaces, h]
  | none => simp [NG.element, processNamespaces, h, XG.element]

/-! ### Lemmas about the indentation layer -/

theorem formatValue_fst (cfg : IndentCfg) (g : Gen) (value : String) :
    (IG.formatValue cfg g value).1
      = { g with out := g.out ++ "\n" ++ srepeat cfg.indentStr g.stack.length } := by
  simp only [IG.formatValue]
  split <;> rfl

theorem greedy_starts (w : Nat) (pre : List Char) (words : List (List Char)) :
    ∀ cur, (∃ t, cur = pre ++ t) →
      ∀ l ∈ greedy w pre cur words, ∃ t, l = pre ++ t := by
  induction words with
  | nil =>
    intro cur hc l hl
    simp only [greedy, List.mem_singleton] at hl
    exact hl ▸ hc
  | cons word rest ih =>
    intro cur hc l hl
    simp only [greedy] at hl
    split at hl
    · obtain ⟨t, ht⟩ := hc
      exact ih _ ⟨t ++ ' ' :: word, by rw [ht, List.append_assoc]⟩ l hl
    · rcases List.mem_cons.mp hl with hl | hl
      · exact hl ▸ hc
      · exact ih _ ⟨word, rfl⟩ l hl

theorem greedy_le (w : Nat) (pre : List Char) (words : List (List Char)) :
    ∀ cur, (∀ word ∈ words, pre.length + word.length ≤ w) → cur.length ≤ w →
      ∀ l ∈ greedy w pre cur words, l.length ≤ w := by
  induction words with
  | nil =>
    intro cur _ hcur l hl
    simp only [greedy, List.mem_singleton] at hl
    exact hl ▸ hcur
  | cons word rest ih =>
    intro cur hw hcur l hl
    simp only [greedy] at hl
    split at hl
    · next hfit =>
      refine ih _ (fun x hx => hw x (List.mem_cons_of_mem _ hx)) ?_ l hl
      simp only [List.length_append, List.length_cons]
      omega
    · rcases List.mem_cons.mp hl with hl | hl
      · exact hl ▸ hcur
      · refine ih _ (fun x hx => hw x (List.mem_cons_of_mem _ hx)) ?_ l hl
        have := hw word (List.mem_cons_self _ _)
        simp only [List.length_append]
        omega

theorem wrapLines_starts (w : Nat) (pre : List Char) (words : List (List Char)) :
    ∀ l ∈ wrapLines w pre words, ∃ t, l = pre ++ t := by
  cases words with
  | nil => simp [wrapLines]
  | cons word rest =>
    exact greedy_starts w pre rest _ ⟨word, rfl⟩

theorem wrapLines_le (w : Nat) (pre : List Char) (words : List (List Char))
    (hw : ∀ word ∈ words, pre.length + word.length ≤ w) :
    ∀ l ∈ wrapLines w pre words, l.length ≤ w := by
  cases words with
  | nil => simp [wrapLines]
  | cons word rest =>
    refine greedy_le w pre rest _ (fun x hx => hw x (List.mem_cons_of_mem _ hx)) ?_
    have := hw word (List.mem_cons_self _ _)
    simp only [List.length_append]
    omega

/-! ### Claim C1 -/

/-- C1 (code bug): the claim demands lexical scoping of declared prefixes,
but the in-place union into the shared set object makes a prefix declared
only inside a nested container stay visible after that container closes:
the run root(n1) / open c(n2) / close / element n2:item raises no error,
the prefix n2 is still in the visible set, and the element is written. -/
theorem c1_scope_leak :
    (NG.init "root" [] [("n1", "urn:n1")]).2 = none
    ∧ (NG.container c1g1 "c" [] [("n2", "urn:n2")]).2 = none
    ∧ (NG.exit c1g2 false).2 = none
    ∧ "n2" ∈ c1g3.nsStore.getD (topRef c1g3) ∅
    ∧ (NG.element c1g3 "n2:item" [] [] "").2 = none
    ∧ (NG.element c1g3 "n2:item" [] [] "").1.out = c1g3.out ++ "<n2:item/>" := by
  refine ⟨by decide, by decide, by decide, by decide, by decide, by decide⟩

/-! ### Claim C2 -/

/-- C2 counterexample: through the indentation layer, a container call
whose name uses an unknown prefix raises the namespace error but has
already written the newline-plus-indent bytes, so the sink did change for
that call, contradicting the claim that no bytes are written. -/
theorem c2_atomicity_counterexample :
    (IG.container cfgW c2g "n9:c" [] []).2 = some (.nsError "n9")
    ∧ (IG.container cfgW c2g "n9:c" [] []).1.out ≠ c2g.out := by
  refine ⟨by decide, by decide⟩

/-- C2 (amended): a failing open or element call raises the namespace
error identifying the first missing prefix; on the namespaced writer the
sink is untouched, while through the indentation layer exactly the
pre-call newline-plus-indent whitespace has been written; in both cases
all previously written output remains as a prefix of the sink. -/
theorem c2_atomicity_amended (g : Gen) (cfg : IndentCfg) (name : String)
    (attrs : Attrs) (ns : List (String × String)) (text p : String)
    (hf : findUnknown (visibleAfterMerge g ns) (name :: attrs.map Prod.fst) = some p) :
    (NG.container g name attrs ns).2 = some (.nsError p)
    ∧ (NG.container g name attrs ns).1.out = g.out
    ∧ (NG.element g name attrs ns text).2 = some (.nsError p)
    ∧ (NG.element g name attrs ns text).1.out = g.out
    ∧ (IG.container cfg g name attrs ns).2 = some (.nsError p)
    ∧ (IG.container cfg g name attrs ns).1.out
        = g.out ++ "\n" ++ srepeat cfg.indentStr g.stack.length
    ∧ (IG.element cfg g name attrs ns text).2 = some (.nsError p)
    ∧ (IG.element cfg g name attrs ns text).1.out
        = g.out ++ "\n" ++ srepeat cfg.indentStr g.stack.length := by
  have hf1 : ∀ o : String,
      findUnknown (visibleAfterMerge { g with out := o } ns)
        (name :: attrs.map Prod.fst) = some p := fun _ => hf
  refine ⟨?_, ?_, ?_, ?_, ?_, ?_, ?_, ?_⟩
  · simp [NG.container, processNamespaces, hf]
  · simp [NG.container, processNamespaces, hf]
  · simp [NG.element, processNamespaces, hf]
  · simp [NG.element, processNamespaces, hf]
  · simp [IG.container, NG.container, processNamespaces, hf1 _]
  · simp [IG.container, NG.container, processNamespaces, hf1 _]
  · rw [IG.element, formatValue_fst]
    simp [NG.element, processNamespaces, hf1 _]
  · rw [IG.element, formatValue_fst]
    simp [NG.element, processNamespaces, hf1 _]

/-- C2 witness: the amended theorem applied to a concrete failing call on
the namespaced writer, hypothesis discharged by evaluation. -/
theorem c2_atomicity_witness :
    (NG.container c4g "n9:c" [] []).2 = some (.nsError "n9")
    ∧ (NG.container c4g "n9:c" [] []).1.out = c4g.out := by
  have h := c2_atomicity_amended c4g cfgW "n9:c" [] [] "" "n9" (by decide)
  exact ⟨h.1, h.2.1⟩

/-! ### Claim C3 -/

/-- C3 counterexample: the abnormal scoped exit completes without error,
yet afterwards the scope stack is one entry short of the claimed
container-stack length plus one, because the namespace pop runs even when
the container pop is skipped. -/
theorem c3_invariant_counterexample :
    (NG.step c4g (Call.exit true)).2 = none
    ∧ ¬ lenInv (NG.step c4g (Call.exit true)).1 := by
  refine ⟨by decide, by decide⟩

/-- C3 (amended): the scope-stack length equals the container-stack length
plus one after construction and after every completed public operation
other than the abnormal scoped exit; the abnormal exit pops the scope
stack without popping the container stack and so breaks the invariant. -/
theorem c3_invariant_amended :
    (∀ root attrs ns, (NG.init root attrs ns).2 = none → lenInv (NG.init root attrs ns).1)
    ∧ (∀ (g : Gen) (c : Call), lenInv g → (NG.step g c).2 = none →
        c ≠ Call.exit true → lenInv (NG.step g c).1) := by
  constructor
  · intro root attrs ns herr
    unfold NG.init at herr ⊢
    rcases container_cases
        { out := xmlHeader, stack := [], nsStore := [{"xml"}], nsStack := [0] }
        root attrs ns with ⟨p, hc⟩ | hc
    · rw [hc] at herr
      simp at herr
    · rw [hc]
      simp [lenInv, XG.container]
  · intro g c hinv herr hne
    cases c with
    | container name attrs ns =>
      rcases container_cases g name attrs ns with ⟨p, hc⟩ | hc
      · rw [NG.step, hc] at herr
        simp at herr
      · rw [NG.step, hc]
        simp only [lenInv, XG.container, List.length_cons]
        simpa [lenInv] using hinv
    | element name attrs ns text =>
      have h := element_frame g name attrs ns text
      rw [NG.step] at herr ⊢
      simp only [lenInv, h.1, h.2]
      exact hinv
    | text value =>
      simpa [NG.step, XG.text, lenInv] using hinv
    | comment value =>
      simpa [NG.step, XG.comment, lenInv] using hinv
    | exit exc =>
      cases exc with
      | true => exact absurd rfl hne
      | false =>
        cases hs : g.stack with
        | nil =>
          rw [NG.step, NG.exit] at herr
          simp [XG.exit, hs] at herr
        | cons n rest =>
          cases hns : g.nsStack with
          | nil => simp [lenInv, hns] at hinv
          | cons r t =>
            rw [NG.step, NG.exit]
            simp only [XG.exit, Bool.false_eq_true, if_neg, hs]
            simp only [hns, lenInv]
            simp only [lenInv, hns, hs, List.length_cons] at hinv
            simp
            omega

/-- C3 witness: the amended theorem applied after construction and after
one completed element call, all hypotheses discharged by evaluation. -/
theorem c3_invariant_witness :
    lenInv (NG.init "root" [] []).1
    ∧ lenInv (NG.step (NG.init "root" [] []).1 (Call.element "x" [] [] "t")).1 := by
  refine ⟨c3_invariant_amended.1 "root" [] [] (by decide), ?_⟩
  exact c3_invariant_amended.2 (NG.init "root" [] []).1 (Call.element "x" [] [] "t")
    (c3_invariant_amended.1 "root" [] [] (by decide)) (by decide) (by decide)

/-! ### Claim C4 -/

/-- C4: validation happens against the post-merge visible set (the parent
scope's set united with the prefixes declared in the same call), so a name
whose prefix is declared in the very same call passes, the call succeeds,
and the declared mapping is emitted as xmlns attributes merged after the
caller's attributes on that element (or container). -/
theorem c4_self_declaring (g : Gen) (name : String) (attrs : Attrs)
    (ns : List (String × String)) (text : String)
    (href : topRef g < g.nsStore.length)
    (hok : findUnknown (visibleAfterMerge g ns) (name :: attrs.map Prod.fst) = none) :
    visibleAfterMerge g ns = g.nsStore.getD (topRef g) ∅ ∪ nsKeys ns
    ∧ (NG.element g name attrs ns text).2 = none
    ∧ (NG.element g name attrs ns text).1.out
        = g.out ++ renderElement name (mergedAttrs attrs ns) text
    ∧ (NG.container g name attrs ns).2 = none
    ∧ (NG.container g name attrs ns).1.out
        = g.out ++ renderOpenTag name (mergedAttrs attrs ns)
    ∧ (NG.container g name attrs ns).1.stack = name :: g.stack
    ∧ (((xmlnsOf ns).map Prod.fst).Nodup →
        (∀ k ∈ (xmlnsOf ns).map Prod.fst, k ∉ attrs.map Prod.fst) →
        mergedAttrs attrs ns = attrs ++ xmlnsOf ns) := by
  refine ⟨visibleAfterMerge_eq g ns href, ?_, ?_, ?_, ?_, ?_, ?_⟩
  · simp [NG.element, processNamespaces, hok]
  · simp [NG.element, processNamespaces, hok, XG.element]
  · simp [NG.container, processNamespaces, hok]
  · simp [NG.container, processNamespaces, hok, XG.container]
  · simp [NG.container, processNamespaces, hok, XG.container]
  · intro hnd hdisj
    unfold mergedAttrs
    by_cases hns : ns.isEmpty
    · have h2 : ns = [] := by simpa [List.isEmpty_iff] using hns
      subst h2
      simp [xmlnsOf]
    · rw [if_neg hns]
      exact dictUpdate_append attrs _ hnd hdisj

/-- C4 witness: an element whose prefix is declared in the same call, on a
fresh writer with no prior declarations, succeeds and carries the xmlns
attribute. -/
theorem c4_self_declaring_witness :
    (NG.element c4g "n2:item" [] [("n2", "urn:n2")] "").2 = none
    ∧ (NG.element c4g "n2:item" [] [("n2", "urn:n2")] "").1.out
        = c4g.out ++ renderElement "n2:item" (mergedAttrs [] [("n2", "urn:n2")]) ""
    ∧ mergedAttrs [] [("n2", "urn:n2")] = [] ++ xmlnsOf [("n2", "urn:n2")] := by
  have h := c4_self_declaring c4g "n2:item" [] [("n2", "urn:n2")] ""
    (by decide) (by decide)
  exact ⟨h.2.1, h.2.2.1, h.2.2.2.2.2.2 (by decide) (by decide)⟩

/-! ### Claim C5 -/

/-- C5: on the scoped exit with a pending exception the base writer
returns at once, leaving the state (including the sink) exactly as it was,
so no closing tag is written for this container nor, as the exception
propagates, for any still-open ancestor; on a normal exit the matching
closing tag of the top container is written and the stack popped. -/
theorem c5_abnormal_exit (g : Gen) :
    XG.exit g true = (g, none)
    ∧ ∀ n rest, g.stack = n :: rest →
        XG.exit g false
          = ({ g with out := g.out ++ "</" ++ n ++ ">", stack := rest }, none) := by
  constructor
  · rfl
  · intro n rest h
    simp [XG.exit, h]

/-- C5 witness: the theorem applied to the abnormal-exit test state (root
opened, text written): the abnormal exit leaves the unclosed root in the
sink, the normal exit writes the closing root tag. -/
theorem c5_abnormal_exit_witness :
    XG.exit c5gW true = (c5gW, none)
    ∧ XG.exit c5gW false
        = ({ c5gW with out := c5gW.out ++ "</" ++ "root" ++ ">", stack := [] }, none) := by
  exact ⟨(c5_abnormal_exit c5gW).1, (c5_abnormal_exit c5gW).2 "root" [] rfl⟩

/-! ### Claim C6 -/

/-- C6: formatting an element or comment value writes newline plus the
current indent, leaves the value untouched unless wrapping is enabled and
the value is longer than the width, and otherwise reflows it into filled
lines (each starting with the next level's indent, each within the
effective width floor-clamped as the maximum of the minimum width and the
width minus the indent, provided every indented word fits), followed by a
newline and the element's indent so the closing tag gets its own line. -/
theorem c6_pretty_print_wrapping (cfg : IndentCfg) (g : Gen) (value : String)
    (ind pre : String) (effW : Nat)
    (hind : ind = srepeat cfg.indentStr g.stack.length)
    (hpre : pre = ind ++ cfg.indentStr)
    (heff : effW = max cfg.min_width (cfg.width - pre.length)) :
    (IG.formatValue cfg g value).1.out = g.out ++ "\n" ++ ind
    ∧ (¬(value.length > cfg.width ∧ cfg.text_wrap = true) →
        (IG.formatValue cfg g value).2 = value)
    ∧ (cfg.text_wrap = false → '\n' ∉ value.data →
        '\n' ∉ ((IG.formatValue cfg g value).2).data)
    ∧ ((value.length > cfg.width ∧ cfg.text_wrap = true) →
        (IG.formatValue cfg g value).2
          = "\n" ++ twFill effW pre value ++ "\n" ++ ind
        ∧ (∀ l ∈ wrapLines effW pre.data (splitWords value.data), ∃ t, l = pre.data ++ t)
        ∧ ((∀ word ∈ splitWords value.data, pre.data.length + word.length ≤ effW) →
            ∀ l ∈ wrapLines effW pre.data (splitWords value.data), l.length ≤ effW)) := by
  subst hind hpre heff
  refine ⟨?_, ?_, ?_, ?_⟩
  · rw [formatValue_fst]
  · intro h
    simp only [IG.formatValue]
    rw [if_neg h]
  · intro hw hnl
    have h : ¬(value.length > cfg.width ∧ cfg.text_wrap = true) := by
      rintro ⟨-, h2⟩
      rw [hw] at h2
      exact Bool.false_ne_true h2
    simp only [IG.formatValue]
    rw [if_neg h]
    exact hnl
  · intro h
    refine ⟨?_, wrapLines_starts _ _ _, wrapLines_le _ _ _⟩
    simp only [IG.formatValue]
    rw [if_pos h]
    simp [IG.fillWith, String.length_append]

/-- C6 witness: the theorem applied at the indent test's configuration,
depth two and hundred-character text, all hypotheses discharged by
evaluation: the text wraps with six-space-indented lines within width
sixty-four and the closing tag lands on its own four-space-indented line. -/
theorem c6_pretty_print_wrapping_witness :
    (IG.formatValue cfgW gW blahW).1.out = gW.out ++ "\n" ++ "    "
    ∧ (IG.formatValue cfgW gW blahW).2 = "\n" ++ twFill 64 "      " blahW ++ "\n" ++ "    "
    ∧ (∀ l ∈ wrapLines 64 "      ".data (splitWords blahW.data),
        ∃ t, l = "      ".data ++ t)
    ∧ (∀ l ∈ wrapLines 64 "      ".data (splitWords blahW.data), l.length ≤ 64) := by
  have h := c6_pretty_print_wrapping cfgW gW blahW "    " "      " 64
    (by decide) (by decide) (by decide)
  have h4 := h.2.2.2 (by decide)
  exact ⟨h.1, h4.1, h4.2.1, h4.2.2 (by decide)⟩

/-! ### Claim C7 -/

/-- C7: comment sanitization is total (a plain function) and for every
input, including inputs with three or more consecutive hyphens where
removals could juxtapose surviving hyphens, its output holds no two
adjacent hyphens. -/
theorem c7_sanitize_comment_no_double_dash (s : List Char) :
    hasDoubleDash (sanitize_comment s) = false := by
  induction s using sanitize_comment.induct with
  | case1 => rfl
  | case2 c => rfl
  | case3 a b rest hab ih =>
    rw [sanitize_comment, if_pos hab]
    exact ih
  | case4 a b rest hab ih =>
    rw [sanitize_comment, if_neg hab]
    refine hasDoubleDash_cons a _ ih ?_
    intro ha b' t' heq hb'
    apply hab
    refine ⟨ha, ?_⟩
    by_cases hbd : b = '-'
    · exact hbd
    · obtain ⟨t0, ht0⟩ := sanitize_comment_head b hbd rest
      rw [ht0] at heq
      cases heq
      exact absurd hb' hbd

/-! ### Claim C8 -/

/-- C8: the text escaper replaces every ampersand with the amp entity and
every less-than sign with the lt entity, leaves greater-than signs and
double quotes unchanged, returns the input unchanged when neither special
character is present, and decoding the entity references in its output
reproduces the original string exactly. -/
theorem c8_escape_round_trip (s : List Char) :
    escape s = escapeEach s
    ∧ (('&' ∉ s ∧ '<' ∉ s) → escape s = s)
    ∧ decodeEntities (escape s) = s
    ∧ (escape s).count '>' = s.count '>'
    ∧ (escape s).count '"' = s.count '"' := by
  refine ⟨escape_eq_escapeEach s, ?_, ?_, ?_, ?_⟩
  · intro h
    unfold escape
    rw [if_pos h]
  · rw [escape_eq_escapeEach]
    exact decode_escapeEach s
  · rw [escape_eq_escapeEach]
    exact count_escapeEach s '>' (by decide) (by decide) (by decide) (by decide)
  · rw [escape_eq_escapeEach]
    exact count_escapeEach s '"' (by decide) (by decide) (by decide) (by decide)

/-- C8 witness: the theorem applied at concrete inputs, with its
hypothesis discharged. -/
theorem c8_escape_round_trip_witness :
    escape ['a', 'b'] = ['a', 'b']
    ∧ decodeEntities (escape ['a', '&', '<', 'b']) = ['a', '&', '<', 'b'] := by
  refine ⟨?_, ?_⟩
  · exact (c8_escape_round_trip ['a', 'b']).2.1 (by decide)
  · exact (c8_escape_round_trip ['a', '&', '<', 'b']).2.2.1

/-! ### Claim C9 -/

/-- C9: the attribute escaper replaces every ampersand, less-than sign and
double quote with the corresponding entity, wraps the result in double
quotes (also on the fast path where no special character is present), the
quoted body contains no double quote, and resolving the entity references
in the body recovers the original value exactly, including values holding
all three special characters together. -/
theorem c9_quote_value_round_trip (s : List Char) :
    quote_value s = '"' :: (escAttrEach s ++ ['"'])
    ∧ '"' ∉ escAttrEach s
    ∧ decodeAttr (escAttrEach s) = s
    ∧ (('&' ∉ s ∧ '<' ∉ s ∧ '"' ∉ s) → quote_value s = '"' :: (s ++ ['"'])) := by
  refine ⟨quote_value_eq s, quot_not_mem_escAttrEach s, decodeAttr_escAttrEach s, ?_⟩
  intro h
  rw [quote_value_eq s, escAttrEach_of_no_special s h]

/-- C9 witness: the theorem applied at concrete inputs, with its
hypothesis discharged. -/
theorem c9_quote_value_round_trip_witness :
    quote_value ['a', 'b'] = '"' :: (['a', 'b'] ++ ['"'])
    ∧ decodeAttr (escAttrEach ['"', '&', '<']) = ['"', '&', '<'] := by
  refine ⟨?_, ?_⟩
  · exact (c9_quote_value_round_trip ['a', 'b']).2.2.2 (by decide)
  · exact (c9_quote_value_round_trip ['"', '&', '<']).2.2.1

/-! ### Claim C10 -/

/-- C10: when a call passes both a non-empty attrs dict and a namespaces
mapping and validation passes, the attribute dict coming out of
`_process_namespaces` is the caller's attrs followed by the xmlns entries
and differs from the caller's original content; since Python's
`attributes = attrs or` fresh dict binds the caller's own object when
attrs is non-empty and `update` mutates it in place, this is the content
the caller's dict holds after the call. -/
theorem c10_attrs_mutated (g : Gen) (name : String) (attrs : Attrs)
    (ns : List (String × String))
    (hns : ns ≠ [])
    (hok : findUnknown (visibleAfterMerge g ns) (name :: attrs.map Prod.fst) = none)
    (hnd : ((xmlnsOf ns).map Prod.fst).Nodup)
    (hdisj : ∀ k ∈ (xmlnsOf ns).map Prod.fst, k ∉ attrs.map Prod.fst) :
    (processNamespaces g name attrs ns).attributes = attrs ++ xmlnsOf ns
    ∧ (processNamespaces g name attrs ns).attributes ≠ attrs := by
  have hne : ns.isEmpty = false := by
    cases ns with
    | nil => exact absurd rfl hns
    | cons a t => rfl
  have h1 : (processNamespaces g name attrs ns).attributes = mergedAttrs attrs ns := by
    simp [processNamespaces, hok]
  have h2 : mergedAttrs attrs ns = attrs ++ xmlnsOf ns := by
    unfold mergedAttrs
    rw [hne]
    simp only [Bool.false_eq_true, if_false]
    exact dictUpdate_append attrs _ hnd hdisj
  refine ⟨h1.trans h2, ?_⟩
  rw [h1, h2]
  intro hcontra
  have hlen := congrArg List.length hcontra
  simp only [List.length_append, xmlnsOf, List.length_map] at hlen
  have : ns.length = 0 := by omega
  exact hns (List.length_eq_zero.mp this)

/-- C10 witness: the theorem applied at a concrete call carrying one
ordinary attribute and one declared prefix, hypotheses discharged by
evaluation. -/
theorem c10_attrs_mutated_witness :
    (processNamespaces c4g "n2:item" [("k", "v")] [("n2", "urn:n2")]).attributes
      = [("k", "v")] ++ xmlnsOf [("n2", "urn:n2")]
    ∧ (processNamespaces c4g "n2:item" [("k", "v")] [("n2", "urn:n2")]).attributes
      ≠ [("k", "v")] := by
  exact c10_attrs_mutated c4g "n2:item" [("k", "v")] [("n2", "urn:n2")]
    (by decide) (by decide) (by decide) (by decide)

end ElementFlow
